import Mathlib

/-!
Verification of the per-structure aggregation helpers of the
Ringberg-SummerSchool2022 notebook (`chemiscope.ipynb`).

The notebook defines two helpers, `average_over_structures` and
`sum_over_structures`.  Both receive a descriptor whose block carries
  * `samples["structure"]`  : the structure index of each row, and
  * `values`                : a 2-D numeric array with one row per atom,
and compute, for every distinct structure index (obtained with `np.unique`,
hence in ascending order), the column-wise mean (resp. sum) of the rows
whose index matches, via a boolean mask `samples["structure"] == structure`
applied as `values[mask, :]`.

The embedding below models
  * the structure-index column as `List ℤ`,
  * the 2-D value array as `Matrix2D` (a column count plus a list of rows
    over `ℚ`, mirroring a numpy array's intrinsic shape),
  * `np.unique` as sorting the deduplicated list,
  * boolean-mask indexing as a fallible operation (`Except`), since numpy
    raises `IndexError` when the mask length differs from the row count,
  * `np.mean(·, axis=0)` and `np.sum(·, axis=0)` column-wise over `ℚ`.

A second, state-passing embedding (`PyState`, `average_over_structures_st`,
`sum_over_structures_st`) mirrors the notebook's imperative loop — allocating
`output = np.zeros(...)` and updating `output[i, :] += ...` in place — to
reason about the absence of side effects on the inputs.
-/

/-- A 2-D numpy array: its column count together with its list of rows.
A numpy array carries its shape even when it has zero rows. -/
structure Matrix2D where
  ncols : Nat
  rows : List (List ℚ)
deriving DecidableEq, Repr

/-- Rectangularity: every row has exactly `ncols` entries.  Every actual
numpy 2-D array satisfies this by construction. -/
def Matrix2D.WF (m : Matrix2D) : Prop :=
  ∀ r ∈ m.rows, r.length = m.ncols

instance (m : Matrix2D) : Decidable m.WF :=
  List.decidableBAll _ m.rows

/-- `np.zeros(c)`: one zero row of length `c`. -/
def npZerosRow (c : Nat) : List ℚ :=
  List.replicate c 0

/-- `np.unique(xs)`: the distinct values of `xs`, in ascending order. -/
def npUnique (xs : List ℤ) : List ℤ :=
  List.insertionSort (· ≤ ·) xs.dedup

/-- The `IndexError` message numpy produces when a boolean index does not
match the indexed array: it names both mismatching lengths. -/
def lengthMismatchMsg (nrows nmask : Nat) : String :=
  "boolean index did not match indexed array along dimension 0; dimension is "
    ++ toString nrows ++ " but corresponding boolean dimension is "
    ++ toString nmask

/-- `values[mask, :]` — numpy boolean-mask indexing along the row axis.
Numpy raises `IndexError` when the boolean index length differs from the
number of rows; otherwise it keeps exactly the rows at `true` positions. -/
def boolMaskIndex (mask : List Bool) (rows : List (List ℚ)) :
    Except String (List (List ℚ)) :=
  if mask.length = rows.length then
    Except.ok (((mask.zip rows).filter (fun p => p.1)).map (fun p => p.2))
  else
    Except.error (lengthMismatchMsg rows.length mask.length)

/-- Element-wise addition of two numeric vectors (numpy `+` on 1-D arrays). -/
def vecAdd (a b : List ℚ) : List ℚ :=
  List.zipWith (· + ·) a b

/-- `np.sum(x, axis=0)` for an array with rows `rows` and `c` columns:
the column-wise sum, starting from the zero vector. -/
def npSumAxis0 (c : Nat) (rows : List (List ℚ)) : List ℚ :=
  rows.foldl vecAdd (npZerosRow c)

/-- `np.mean(x, axis=0)` for an array with rows `rows` and `c` columns:
the column-wise sum divided by the number of rows.  (The aggregators only
ever apply it to a non-empty selection, see the claim about empty groups.) -/
def npMeanAxis0 (c : Nat) (rows : List (List ℚ)) : List ℚ :=
  (npSumAxis0 c rows).map (fun v => v / (rows.length : ℚ))

/-- `def average_over_structures(descriptor)` from the notebook:

    all_structures = np.unique(samples["structure"])
    output = np.zeros((len(all_structures), values.shape[1]))
    for i, structure in enumerate(all_structures):
        mask = samples["structure"] == structure
        output[i, :] += np.mean(values[mask, :], axis=0)
    return output

`samples` is the structure-index column; each output row starts as the
zero row and receives the column-wise mean of the masked rows. -/
def average_over_structures (samples : List ℤ) (values : Matrix2D) :
    Except String Matrix2D := do
  let all_structures := npUnique samples
  let rows ← all_structures.mapM (fun strId => do
    let mask := samples.map (fun s => decide (s = strId))
    let masked ← boolMaskIndex mask values.rows
    pure (vecAdd (npZerosRow values.ncols) (npMeanAxis0 values.ncols masked)))
  Except.ok ⟨values.ncols, rows⟩

/-- `def sum_over_structures(descriptor)` from the notebook: identical to
`average_over_structures` except that the reduction is `np.sum` instead of
`np.mean`. -/
def sum_over_structures (samples : List ℤ) (values : Matrix2D) :
    Except String Matrix2D := do
  let all_structures := npUnique samples
  let rows ← all_structures.mapM (fun strId => do
    let mask := samples.map (fun s => decide (s = strId))
    let masked ← boolMaskIndex mask values.rows
    pure (vecAdd (npZerosRow values.ncols) (npSumAxis0 values.ncols masked)))
  Except.ok ⟨values.ncols, rows⟩

/-- The rows of `values` whose structure index equals `strId`, in input
order: the specification-side description of what the boolean mask selects. -/
def groupRows (strId : ℤ) (samples : List ℤ) (rows : List (List ℚ)) :
    List (List ℚ) :=
  ((samples.zip rows).filter (fun p => decide (p.1 = strId))).map (fun p => p.2)

/-- The common shape of the two aggregators, with the column-wise reduction
(`np.mean` or `np.sum`, both taking the column count and the selected rows)
as a parameter.  `average_over_structures` and `sum_over_structures` are
definitionally `aggWith npMeanAxis0` and `aggWith npSumAxis0`; proofs are
carried out once over `aggWith`. -/
def aggWith (red : Nat → List (List ℚ) → List ℚ) (samples : List ℤ)
    (values : Matrix2D) : Except String Matrix2D := do
  let all_structures := npUnique samples
  let rows ← all_structures.mapM (fun strId => do
    let mask := samples.map (fun s => decide (s = strId))
    let masked ← boolMaskIndex mask values.rows
    pure (vecAdd (npZerosRow values.ncols) (red values.ncols masked)))
  Except.ok ⟨values.ncols, rows⟩

/-- The body executed for one distinct structure index inside an
aggregator: select the masked rows and reduce them column-wise, starting
from the zero row the output was initialised with.  This is definitionally
the function the aggregators map over `np.unique(...)`. -/
def aggBody (red : Nat → List (List ℚ) → List ℚ) (samples : List ℤ)
    (values : Matrix2D) (strId : ℤ) : Except String (List ℚ) := do
  let masked ← boolMaskIndex (samples.map (fun s => decide (s = strId)))
    values.rows
  pure (vecAdd (npZerosRow values.ncols) (red values.ncols masked))

/-- The variables visible to one call of an aggregator, for the imperative,
state-passing reading of the notebook code: the two inputs together with the
`output` array that the loop mutates in place. -/
structure PyState where
  samples : List ℤ
  values : Matrix2D
  output : List (List ℚ)
deriving DecidableEq, Repr

/-- One iteration of the loop inside an aggregator, with the reduction as a
parameter:

    mask = samples["structure"] == structure
    output[i, :] += red(values[mask, :], axis=0)

`iStr` is the `(i, structure)` pair produced by `enumerate`. -/
def aggStepWith (red : Nat → List (List ℚ) → List ℚ) (st : PyState)
    (iStr : Nat × ℤ) : Except String PyState := do
  let mask := st.samples.map (fun s => decide (s = iStr.2))
  let masked ← boolMaskIndex mask st.values.rows
  pure { st with output :=
    st.output.set iStr.1 (vecAdd (st.output.getD iStr.1 []) (red st.values.ncols masked)) }

/-- The imperative body of an aggregator: allocate `output = np.zeros(...)`,
run the loop over `enumerate(np.unique(...))` threading the state, and
return the final state together with the returned array. -/
def aggWith_st (red : Nat → List (List ℚ) → List ℚ) (st : PyState) :
    Except String (PyState × Matrix2D) := do
  let all_structures := npUnique st.samples
  let st1 : PyState := { st with
    output := List.replicate all_structures.length (npZerosRow st.values.ncols) }
  let st2 ← all_structures.enum.foldlM (aggStepWith red) st1
  pure (st2, ⟨st2.values.ncols, st2.output⟩)

/-- `average_over_structures` read imperatively, as state-passing code. -/
def average_over_structures_st (st : PyState) : Except String (PyState × Matrix2D) :=
  aggWith_st npMeanAxis0 st

/-- `sum_over_structures` read imperatively, as state-passing code. -/
def sum_over_structures_st (st : PyState) : Except String (PyState × Matrix2D) :=
  aggWith_st npSumAxis0 st

theorem average_eq_aggWith : average_over_structures = aggWith npMeanAxis0 := rfl

theorem sum_eq_aggWith : sum_over_structures = aggWith npSumAxis0 := rfl

theorem maskFilter_eq (s : ℤ) :
    ∀ (samples : List ℤ) (rows : List (List ℚ)),
      (((samples.map (fun x => decide (x = s))).zip rows).filter (fun p => p.1)).map
          (fun p => p.2) = groupRows s samples rows := by
  intro samples
  induction samples with
  | nil => intro rows; rfl
  | cons a as ih =>
    intro rows
    cases rows with
    | nil => rfl
    | cons r rs =>
      simp only [groupRows, List.map_cons, List.zip_cons_cons, List.filter_cons] at ih ⊢
      by_cases h : a = s
      · simp [h, ih rs]
      · simp [h, ih rs]

theorem boolMaskIndex_mask (s : ℤ) (samples : List ℤ) (rows : List (List ℚ))
    (h : samples.length = rows.length) :
    boolMaskIndex (samples.map (fun x => decide (x = s))) rows =
      Except.ok (groupRows s samples rows) := by
  unfold boolMaskIndex
  rw [List.length_map, if_pos h, maskFilter_eq]

theorem mapM_ok {α β : Type} (f : α → Except String β) (g : α → β) :
    ∀ (l : List α), (∀ a ∈ l, f a = Except.ok (g a)) →
      l.mapM f = Except.ok (l.map g) := by
  intro l
  induction l with
  | nil => intro _; rfl
  | cons a as ih =>
    intro h
    rw [List.mapM_cons, h a (List.mem_cons_self a as),
      ih (fun x hx => h x (List.mem_cons_of_mem a hx))]
    rfl

theorem aggWith_char (red : Nat → List (List ℚ) → List ℚ) (samples : List ℤ)
    (values : Matrix2D) (h : samples.length = values.rows.length) :
    aggWith red samples values = Except.ok ⟨values.ncols,
      (npUnique samples).map (fun s =>
        vecAdd (npZerosRow values.ncols)
          (red values.ncols (groupRows s samples values.rows)))⟩ := by
  have hmap : (npUnique samples).mapM (fun strId => do
      let masked ← boolMaskIndex (samples.map (fun s => decide (s = strId))) values.rows
      pure (vecAdd (npZerosRow values.ncols) (red values.ncols masked))) =
      Except.ok ((npUnique samples).map (fun s =>
        vecAdd (npZerosRow values.ncols)
          (red values.ncols (groupRows s samples values.rows)))) := by
    apply mapM_ok
    intro s _
    rw [boolMaskIndex_mask s _ _ h]
    rfl
  simp only [aggWith, hmap]
  rfl

theorem vecAdd_length (a b : List ℚ) : (vecAdd a b).length = min a.length b.length :=
  List.length_zipWith _ a b

theorem foldl_vecAdd_length (c : Nat) :
    ∀ (rows : List (List ℚ)) (acc : List ℚ), acc.length = c →
      (∀ r ∈ rows, r.length = c) → (rows.foldl vecAdd acc).length = c := by
  intro rows
  induction rows with
  | nil => intro acc ha _; exact ha
  | cons r rs ih =>
    intro acc ha h
    simp only [List.foldl_cons]
    exact ih _ (by rw [vecAdd_length, ha, h r (List.mem_cons_self r rs)]; exact Nat.min_self c)
      (fun x hx => h x (List.mem_cons_of_mem r hx))

theorem npSumAxis0_length (c : Nat) (rows : List (List ℚ))
    (h : ∀ r ∈ rows, r.length = c) : (npSumAxis0 c rows).length = c :=
  foldl_vecAdd_length c rows _ (List.length_replicate c 0) h

theorem npMeanAxis0_length (c : Nat) (rows : List (List ℚ))
    (h : ∀ r ∈ rows, r.length = c) : (npMeanAxis0 c rows).length = c := by
  unfold npMeanAxis0
  rw [List.length_map]
  exact npSumAxis0_length c rows h

theorem vecAdd_zeros : ∀ (r : List ℚ) (c : Nat), r.length = c →
    vecAdd (npZerosRow c) r = r := by
  intro r
  induction r with
  | nil => intro c h; cases h; rfl
  | cons a as ih =>
    intro c h
    cases h
    simp only [npZerosRow, List.replicate, vecAdd, List.zipWith_cons_cons, zero_add]
    have := ih as.length rfl
    simp only [npZerosRow, vecAdd] at this
    rw [this]

theorem mem_of_mem_groupRows {r : List ℚ} {s : ℤ} {samples : List ℤ}
    {rows : List (List ℚ)} (h : r ∈ groupRows s samples rows) : r ∈ rows := by
  simp only [groupRows, List.mem_map, List.mem_filter] at h
  obtain ⟨p, ⟨hz, _⟩, hp⟩ := h
  cases hp
  exact (List.of_mem_zip hz).2

theorem groupRows_ne_nil {s : ℤ} : ∀ {samples : List ℤ} {rows : List (List ℚ)},
    samples.length = rows.length → s ∈ samples → groupRows s samples rows ≠ [] := by
  intro samples
  induction samples with
  | nil => intro rows _ hs; exact absurd hs (List.not_mem_nil s)
  | cons a as ih =>
    intro rows hlen hs
    cases rows with
    | nil => exact absurd hlen (by simp)
    | cons r rs =>
      simp only [groupRows, List.zip_cons_cons, List.filter_cons]
      by_cases ha : a = s
      · simp [ha]
      · have hs' : s ∈ as := by
          cases List.mem_cons.mp hs with
          | inl h => exact absurd h.symm ha
          | inr h => exact h
        have := ih (by simpa using hlen) hs'
        simp only [groupRows] at this
        simpa [ha] using this

theorem npUnique_sorted (xs : List ℤ) : (npUnique xs).Sorted (· ≤ ·) :=
  List.sorted_insertionSort _ _

theorem npUnique_nodup (xs : List ℤ) : (npUnique xs).Nodup :=
  ((List.perm_insertionSort _ _).nodup_iff).mpr (List.nodup_dedup xs)

theorem mem_npUnique {a : ℤ} {xs : List ℤ} : a ∈ npUnique xs ↔ a ∈ xs :=
  ((List.perm_insertionSort _ _).mem_iff).trans List.mem_dedup

theorem npUnique_length (xs : List ℤ) : (npUnique xs).length = xs.dedup.length :=
  List.length_insertionSort _ _

theorem aggWith_shape (red : Nat → List (List ℚ) → List ℚ) (samples : List ℤ)
    (values : Matrix2D) (hlen : samples.length = values.rows.length)
    (hwf : values.WF)
    (hred : ∀ g : List (List ℚ), (∀ r ∈ g, r.length = values.ncols) →
      (red values.ncols g).length = values.ncols) :
    ∃ o, aggWith red samples values = Except.ok o ∧ o.ncols = values.ncols ∧
      o.rows.length = samples.dedup.length ∧ o.WF := by
  refine ⟨_, aggWith_char red samples values hlen, rfl, ?_, ?_⟩
  · simp [List.length_map, npUnique_length]
  · intro r hr
    simp only [List.mem_map] at hr
    obtain ⟨s, hs, hrs⟩ := hr
    have hg : ∀ x ∈ groupRows s samples values.rows, x.length = values.ncols :=
      fun x hx => hwf x (mem_of_mem_groupRows hx)
    rw [← hrs]
    show (vecAdd (npZerosRow values.ncols) _).length = values.ncols
    rw [vecAdd_length, npZerosRow, List.length_replicate, hred _ hg, Nat.min_self]

theorem aggWith_rows (red : Nat → List (List ℚ) → List ℚ) (samples : List ℤ)
    (values : Matrix2D) (hlen : samples.length = values.rows.length)
    (hwf : values.WF)
    (hred : ∀ g : List (List ℚ), (∀ r ∈ g, r.length = values.ncols) →
      (red values.ncols g).length = values.ncols) :
    aggWith red samples values = Except.ok ⟨values.ncols,
      (npUnique samples).map (fun s =>
        red values.ncols (groupRows s samples values.rows))⟩ := by
  rw [aggWith_char red samples values hlen]
  have hcong : (npUnique samples).map (fun s =>
        vecAdd (npZerosRow values.ncols)
          (red values.ncols (groupRows s samples values.rows))) =
      (npUnique samples).map (fun s =>
        red values.ncols (groupRows s samples values.rows)) := by
    apply List.map_congr_left
    intro s _
    exact vecAdd_zeros _ _
      (hred _ (fun x hx => hwf x (mem_of_mem_groupRows hx)))
  rw [hcong]

theorem aggWith_mismatch (red : Nat → List (List ℚ) → List ℚ) (samples : List ℤ)
    (values : Matrix2D) (hne : samples ≠ [])
    (hlen : samples.length ≠ values.rows.length) :
    aggWith red samples values =
      Except.error (lengthMismatchMsg values.rows.length samples.length) := by
  have hne' : npUnique samples ≠ [] := by
    intro hnil
    cases samples with
    | nil => exact hne rfl
    | cons a as =>
      have hm : a ∈ npUnique (a :: as) := mem_npUnique.mpr (List.mem_cons_self a as)
      rw [hnil] at hm
      exact absurd hm (List.not_mem_nil a)
  obtain ⟨u, us, hu⟩ := List.exists_cons_of_ne_nil hne'
  have hb : boolMaskIndex (samples.map (fun s => decide (s = u))) values.rows =
      Except.error (lengthMismatchMsg values.rows.length samples.length) := by
    unfold boolMaskIndex
    rw [List.length_map, if_neg hlen]
  simp only [aggWith, hu, List.mapM_cons, hb]
  rfl

/-- C1: for the single-structure input whose rows 0, 1, 2 all belong to one
structure and whose feature array is [[1,1],[3,3],[5,5]], the mean-mode
aggregator returns the single row [3,3] and the sum-mode aggregator returns
the single row [9,9]. -/
theorem c1_single_structure_example :
    average_over_structures [0, 0, 0] ⟨2, [[1, 1], [3, 3], [5, 5]]⟩ =
      Except.ok ⟨2, [[3, 3]]⟩ ∧
    sum_over_structures [0, 0, 0] ⟨2, [[1, 1], [3, 3], [5, 5]]⟩ =
      Except.ok ⟨2, [[9, 9]]⟩ := by
  have h : npUnique [0, 0, 0] = [0] := by decide
  constructor
  · simp only [average_over_structures, h, List.mapM_cons, List.mapM_nil,
      boolMaskIndex, npMeanAxis0, npSumAxis0, npZerosRow, vecAdd]
    norm_num [Bind.bind, Except.bind, Pure.pure, Except.pure, List.replicate,
      List.zipWith]
  · simp only [sum_over_structures, h, List.mapM_cons, List.mapM_nil,
      boolMaskIndex, npSumAxis0, npZerosRow, vecAdd]
    norm_num [Bind.bind, Except.bind, Pure.pure, Except.pure, List.replicate,
      List.zipWith]

/-- C10: on the empty input — an index mapping with zero rows and a feature
array with zero rows and `c` columns — both aggregators return, without
error, an output with zero rows and `c` columns. -/
theorem c10_empty_input (c : Nat) :
    average_over_structures [] ⟨c, []⟩ = Except.ok ⟨c, []⟩ ∧
    sum_over_structures [] ⟨c, []⟩ = Except.ok ⟨c, []⟩ :=
  ⟨rfl, rfl⟩

/-- C5 counterexample: an empty index mapping with a one-row feature array
has mismatching row counts (0 vs 1), yet both aggregators return
successfully (an empty output) instead of raising any error: the `np.unique`
loop body, which is the only place the mismatch could surface, never runs. -/
theorem c5_counterexample :
    ([] : List ℤ).length ≠ (Matrix2D.mk 1 [[1]]).rows.length ∧
    average_over_structures [] ⟨1, [[1]]⟩ = Except.ok ⟨1, []⟩ ∧
    sum_over_structures [] ⟨1, [[1]]⟩ = Except.ok ⟨1, []⟩ :=
  ⟨by decide, rfl, rfl⟩

/-- C5 (amended): whenever the index mapping is non-empty and its row count
differs from the feature array's row count, both aggregators raise the numpy
`IndexError`, whose message names the two mismatching lengths; with an empty
index mapping the mismatch is silently ignored (see the counterexample). -/
theorem c5_amended_mismatch_raises (samples : List ℤ) (values : Matrix2D)
    (hne : samples ≠ []) (hlen : samples.length ≠ values.rows.length) :
    average_over_structures samples values =
      Except.error (lengthMismatchMsg values.rows.length samples.length) ∧
    sum_over_structures samples values =
      Except.error (lengthMismatchMsg values.rows.length samples.length) :=
  ⟨average_eq_aggWith ▸ aggWith_mismatch npMeanAxis0 samples values hne hlen,
   sum_eq_aggWith ▸ aggWith_mismatch npSumAxis0 samples values hne hlen⟩

theorem c5_amended_witness :
    ([0] : List ℤ) ≠ [] ∧ ([0] : List ℤ).length ≠ (Matrix2D.mk 1 []).rows.length ∧
    (average_over_structures [0] ⟨1, []⟩ =
      Except.error (lengthMismatchMsg (Matrix2D.mk 1 []).rows.length ([0] : List ℤ).length) ∧
    sum_over_structures [0] ⟨1, []⟩ =
      Except.error (lengthMismatchMsg (Matrix2D.mk 1 []).rows.length ([0] : List ℤ).length)) :=
  ⟨by decide, by decide,
    c5_amended_mismatch_raises [0] ⟨1, []⟩ (by decide) (by decide)⟩

/-- C2: whenever the index mapping and the feature array have the same row
count (and the array is rectangular), both aggregators succeed and return a
rectangular array with exactly one row per distinct structure index and with
the input's column count. -/
theorem c2_output_shape (samples : List ℤ) (values : Matrix2D)
    (hlen : samples.length = values.rows.length) (hwf : values.WF) :
    ∃ oA oS, average_over_structures samples values = Except.ok oA ∧
      sum_over_structures samples values = Except.ok oS ∧
      oA.ncols = values.ncols ∧ oS.ncols = values.ncols ∧
      oA.rows.length = samples.dedup.length ∧
      oS.rows.length = samples.dedup.length ∧ oA.WF ∧ oS.WF := by
  obtain ⟨oA, hA, hAc, hAl, hAwf⟩ := aggWith_shape npMeanAxis0 samples values hlen hwf
    (fun g hg => npMeanAxis0_length values.ncols g hg)
  obtain ⟨oS, hS, hSc, hSl, hSwf⟩ := aggWith_shape npSumAxis0 samples values hlen hwf
    (fun g hg => npSumAxis0_length values.ncols g hg)
  exact ⟨oA, oS, average_eq_aggWith ▸ hA, sum_eq_aggWith ▸ hS,
    hAc, hSc, hAl, hSl, hAwf, hSwf⟩

theorem c2_witness :
    ([0, 1, 0] : List ℤ).length = (Matrix2D.mk 1 [[1], [2], [4]]).rows.length ∧
    (Matrix2D.mk 1 [[1], [2], [4]]).WF ∧
    (∃ oA oS,
      average_over_structures [0, 1, 0] ⟨1, [[1], [2], [4]]⟩ = Except.ok oA ∧
      sum_over_structures [0, 1, 0] ⟨1, [[1], [2], [4]]⟩ = Except.ok oS ∧
      oA.ncols = (Matrix2D.mk 1 [[1], [2], [4]]).ncols ∧
      oS.ncols = (Matrix2D.mk 1 [[1], [2], [4]]).ncols ∧
      oA.rows.length = ([0, 1, 0] : List ℤ).dedup.length ∧
      oS.rows.length = ([0, 1, 0] : List ℤ).dedup.length ∧ oA.WF ∧ oS.WF) :=
  ⟨by decide, by decide, c2_output_shape [0, 1, 0] ⟨1, [[1], [2], [4]]⟩
    (by decide) (by decide)⟩

/-- C8: under matching row counts, every structure index the aggregators
iterate over (the elements of `np.unique` of the index column) comes from an
existing input row, so the boolean-mask selection succeeds and selects a
non-empty group — the mean in `average_over_structures` is never taken over
zero rows and no empty-group error path is reachable. -/
theorem c8_groups_nonempty (samples : List ℤ) (values : Matrix2D)
    (hlen : samples.length = values.rows.length) :
    ∀ s ∈ npUnique samples, s ∈ samples ∧
      boolMaskIndex (samples.map (fun x => decide (x = s))) values.rows =
        Except.ok (groupRows s samples values.rows) ∧
      groupRows s samples values.rows ≠ [] := by
  intro s hs
  exact ⟨mem_npUnique.mp hs, boolMaskIndex_mask s _ _ hlen,
    groupRows_ne_nil hlen (mem_npUnique.mp hs)⟩

theorem c8_witness :
    ([3, 1, 3] : List ℤ).length = (Matrix2D.mk 1 [[1], [2], [4]]).rows.length ∧
    (∀ s ∈ npUnique [3, 1, 3], s ∈ ([3, 1, 3] : List ℤ) ∧
      boolMaskIndex (([3, 1, 3] : List ℤ).map (fun x => decide (x = s)))
          (Matrix2D.mk 1 [[1], [2], [4]]).rows =
        Except.ok (groupRows s [3, 1, 3] (Matrix2D.mk 1 [[1], [2], [4]]).rows) ∧
      groupRows s [3, 1, 3] (Matrix2D.mk 1 [[1], [2], [4]]).rows ≠ []) :=
  ⟨by decide, c8_groups_nonempty [3, 1, 3] ⟨1, [[1], [2], [4]]⟩ (by decide)⟩

/-- C9: the aggregators accept arbitrary index mappings — unsorted,
non-contiguous, repeated — and, under matching row counts, return exactly
one row per distinct structure index (in `np.unique` order), each row being
the column-wise mean (resp. sum) of precisely the input rows carrying that
index. -/
theorem c9_grouped_reduction (samples : List ℤ) (values : Matrix2D)
    (hlen : samples.length = values.rows.length) (hwf : values.WF) :
    average_over_structures samples values = Except.ok ⟨values.ncols,
      (npUnique samples).map (fun s =>
        npMeanAxis0 values.ncols (groupRows s samples values.rows))⟩ ∧
    sum_over_structures samples values = Except.ok ⟨values.ncols,
      (npUnique samples).map (fun s =>
        npSumAxis0 values.ncols (groupRows s samples values.rows))⟩ :=
  ⟨average_eq_aggWith ▸ aggWith_rows npMeanAxis0 samples values hlen hwf
      (fun g hg => npMeanAxis0_length values.ncols g hg),
   sum_eq_aggWith ▸ aggWith_rows npSumAxis0 samples values hlen hwf
      (fun g hg => npSumAxis0_length values.ncols g hg)⟩

theorem c9_witness :
    ([7, -2, 7] : List ℤ).length = (Matrix2D.mk 1 [[1], [2], [4]]).rows.length ∧
    (Matrix2D.mk 1 [[1], [2], [4]]).WF ∧
    (average_over_structures [7, -2, 7] ⟨1, [[1], [2], [4]]⟩ =
      Except.ok ⟨1, (npUnique [7, -2, 7]).map (fun s =>
        npMeanAxis0 1 (groupRows s [7, -2, 7] [[1], [2], [4]]))⟩ ∧
    sum_over_structures [7, -2, 7] ⟨1, [[1], [2], [4]]⟩ =
      Except.ok ⟨1, (npUnique [7, -2, 7]).map (fun s =>
        npSumAxis0 1 (groupRows s [7, -2, 7] [[1], [2], [4]]))⟩) :=
  ⟨by decide, by decide,
    c9_grouped_reduction [7, -2, 7] ⟨1, [[1], [2], [4]]⟩ (by decide) (by decide)⟩

theorem vecAdd_right_comm : ∀ (b a₁ a₂ : List ℚ),
    vecAdd (vecAdd b a₁) a₂ = vecAdd (vecAdd b a₂) a₁ := by
  intro b
  induction b with
  | nil => intro a₁ a₂; rfl
  | cons x xs ih =>
    intro a₁ a₂
    cases a₁ with
    | nil => cases a₂ with
      | nil => rfl
      | cons z zs => rfl
    | cons y ys =>
      cases a₂ with
      | nil => rfl
      | cons z zs =>
        simp only [vecAdd, List.zipWith_cons_cons]
        rw [add_right_comm]
        congr 1
        have h := ih ys zs
        simp only [vecAdd] at h
        exact h

instance : RightCommutative vecAdd :=
  ⟨vecAdd_right_comm⟩

theorem npSumAxis0_perm (c : Nat) {g₁ g₂ : List (List ℚ)} (h : g₁.Perm g₂) :
    npSumAxis0 c g₁ = npSumAxis0 c g₂ :=
  h.foldl_eq (npZerosRow c)

theorem npMeanAxis0_perm (c : Nat) {g₁ g₂ : List (List ℚ)} (h : g₁.Perm g₂) :
    npMeanAxis0 c g₁ = npMeanAxis0 c g₂ := by
  unfold npMeanAxis0
  rw [npSumAxis0_perm c h, h.length_eq]

theorem npUnique_perm_eq {l₁ l₂ : List ℤ} (h : l₁.Perm l₂) :
    npUnique l₁ = npUnique l₂ :=
  List.eq_of_perm_of_sorted
    ((List.perm_insertionSort _ _).trans (h.dedup.trans
      (List.perm_insertionSort _ _).symm))
    (npUnique_sorted l₁) (npUnique_sorted l₂)

theorem groupRows_perm {samples₁ samples₂ : List ℤ} {rows₁ rows₂ : List (List ℚ)}
    (hp : (samples₁.zip rows₁).Perm (samples₂.zip rows₂)) (s : ℤ) :
    (groupRows s samples₁ rows₁).Perm (groupRows s samples₂ rows₂) := by
  unfold groupRows
  exact (hp.filter (fun p => decide (p.1 = s))).map (fun p => p.2)

theorem aggWith_perm (red : Nat → List (List ℚ) → List ℚ)
    (hred : ∀ (c : Nat) (g₁ g₂ : List (List ℚ)), g₁.Perm g₂ → red c g₁ = red c g₂)
    (samples₁ samples₂ : List ℤ) (v₁ v₂ : Matrix2D)
    (h₁ : samples₁.length = v₁.rows.length)
    (h₂ : samples₂.length = v₂.rows.length)
    (hc : v₁.ncols = v₂.ncols)
    (hp : (samples₁.zip v₁.rows).Perm (samples₂.zip v₂.rows)) :
    aggWith red samples₁ v₁ = aggWith red samples₂ v₂ := by
  have hs : samples₁.Perm samples₂ := by
    have h := hp.map Prod.fst
    rwa [List.map_fst_zip _ _ (le_of_eq h₁), List.map_fst_zip _ _ (le_of_eq h₂)] at h
  have hu : npUnique samples₁ = npUnique samples₂ := npUnique_perm_eq hs
  rw [aggWith_char red samples₁ v₁ h₁, aggWith_char red samples₂ v₂ h₂, hu, hc]
  refine congrArg Except.ok (congrArg (Matrix2D.mk v₂.ncols) ?_)
  apply List.map_congr_left
  intro s _
  exact congrArg _ (hred v₂.ncols _ _ (groupRows_perm hp s))

/-- C3: the distinct structure indices the aggregators iterate over are
sorted ascending, duplicate-free, and exactly the indices present in the
input; and permuting the input rows — the index column together with the
feature rows — leaves both aggregators' outputs unchanged. -/
theorem c3_order_and_permutation_invariance (samples₁ samples₂ : List ℤ)
    (v₁ v₂ : Matrix2D)
    (h₁ : samples₁.length = v₁.rows.length)
    (h₂ : samples₂.length = v₂.rows.length)
    (hc : v₁.ncols = v₂.ncols)
    (hp : (samples₁.zip v₁.rows).Perm (samples₂.zip v₂.rows)) :
    average_over_structures samples₁ v₁ = average_over_structures samples₂ v₂ ∧
    sum_over_structures samples₁ v₁ = sum_over_structures samples₂ v₂ ∧
    (npUnique samples₁).Sorted (· ≤ ·) ∧ (npUnique samples₁).Nodup ∧
    (∀ s : ℤ, s ∈ npUnique samples₁ ↔ s ∈ samples₁) :=
  ⟨average_eq_aggWith ▸ aggWith_perm npMeanAxis0
      (fun c _ _ h => npMeanAxis0_perm c h) samples₁ samples₂ v₁ v₂ h₁ h₂ hc hp,
   sum_eq_aggWith ▸ aggWith_perm npSumAxis0
      (fun c _ _ h => npSumAxis0_perm c h) samples₁ samples₂ v₁ v₂ h₁ h₂ hc hp,
   npUnique_sorted samples₁, npUnique_nodup samples₁,
   fun _ => mem_npUnique⟩

theorem c3_witness :
    ([1, 0] : List ℤ).length = (Matrix2D.mk 1 [[5], [6]]).rows.length ∧
    ([0, 1] : List ℤ).length = (Matrix2D.mk 1 [[6], [5]]).rows.length ∧
    (Matrix2D.mk 1 [[5], [6]]).ncols = (Matrix2D.mk 1 [[6], [5]]).ncols ∧
    (([1, 0] : List ℤ).zip ([[5], [6]] : List (List ℚ))).Perm
      (([0, 1] : List ℤ).zip ([[6], [5]] : List (List ℚ))) ∧
    (average_over_structures [1, 0] ⟨1, [[5], [6]]⟩ =
        average_over_structures [0, 1] ⟨1, [[6], [5]]⟩ ∧
      sum_over_structures [1, 0] ⟨1, [[5], [6]]⟩ =
        sum_over_structures [0, 1] ⟨1, [[6], [5]]⟩ ∧
      (npUnique [1, 0]).Sorted (· ≤ ·) ∧ (npUnique [1, 0]).Nodup ∧
      (∀ s : ℤ, s ∈ npUnique [1, 0] ↔ s ∈ ([1, 0] : List ℤ))) :=
  ⟨by decide, by decide, by decide, by decide,
    c3_order_and_permutation_invariance [1, 0] [0, 1] ⟨1, [[5], [6]]⟩
      ⟨1, [[6], [5]]⟩ (by decide) (by decide) (by decide) (by decide)⟩

theorem zip_self_map {α β : Type} (f : α → β) (l : List α) :
    l.zip (l.map f) = l.map (fun a => (a, f a)) := by
  have h := List.zip_map' id f l
  simpa using h

theorem map_pair_eq_zip {α β : Type} (g : α → β) :
    ∀ (l₁ : List α) (l₂ : List β), l₁.length = l₂.length →
      (∀ p ∈ l₁.zip l₂, g p.1 = p.2) →
      l₁.map (fun a => (a, g a)) = l₁.zip l₂ := by
  intro l₁
  induction l₁ with
  | nil => intro l₂ _ _; rfl
  | cons a as ih =>
    intro l₂ h hg
    cases l₂ with
    | nil => simp at h
    | cons b bs =>
      simp only [List.map_cons, List.zip_cons_cons]
      have hab : g a = b := hg (a, b) (by simp [List.zip_cons_cons])
      rw [hab, ih bs (by simpa using h)
        (fun p hp => hg p (List.mem_cons_of_mem _ hp))]

theorem exists_mem_zip_left {α β : Type} :
    ∀ (l₁ : List α) (l₂ : List β) (a : α), a ∈ l₁ → l₁.length = l₂.length →
      ∃ b, (a, b) ∈ l₁.zip l₂ := by
  intro l₁
  induction l₁ with
  | nil => intro l₂ a ha _; simp at ha
  | cons x xs ih =>
    intro l₂ a ha hlen
    cases l₂ with
    | nil => simp at hlen
    | cons y ys =>
      cases List.mem_cons.mp ha with
      | inl h => exact ⟨y, by simp [List.zip_cons_cons, h]⟩
      | inr h =>
        obtain ⟨b, hb⟩ := ih ys a h (by simpa using hlen)
        exact ⟨b, by simp only [List.zip_cons_cons]; exact List.mem_cons_of_mem _ hb⟩

theorem groupRows_of_nodup :
    ∀ (samples : List ℤ) (rows : List (List ℚ)), samples.Nodup →
      samples.length = rows.length →
      ∀ p ∈ samples.zip rows, groupRows p.1 samples rows = [p.2] := by
  intro samples
  induction samples with
  | nil => intro rows _ _ p hp; simp at hp
  | cons a as ih =>
    intro rows hnd hlen p hp
    cases rows with
    | nil => simp at hlen
    | cons r rs =>
      simp only [List.zip_cons_cons, List.mem_cons] at hp
      have hna : a ∉ as := (List.nodup_cons.mp hnd).1
      have hnd' : as.Nodup := (List.nodup_cons.mp hnd).2
      cases hp with
      | inl hpa =>
        subst hpa
        simp only [groupRows, List.zip_cons_cons, List.filter_cons]
        have hfilter : (as.zip rs).filter (fun q => decide (q.1 = a)) = [] := by
          rw [List.filter_eq_nil_iff]
          intro q hq
          have hq1 : q.1 ∈ as := (List.of_mem_zip hq).1
          simp only [decide_eq_true_eq]
          intro hqa
          exact hna (hqa ▸ hq1)
        simp [hfilter]
      | inr hpas =>
        have hp1 : p.1 ∈ as := (List.of_mem_zip hpas).1
        have hne : ¬(a = p.1) := fun h => hna (h ▸ hp1)
        have h := ih rs hnd' (by simpa using hlen) p hpas
        simp only [groupRows, List.zip_cons_cons, List.filter_cons] at h ⊢
        simpa [hne] using h

theorem npSumAxis0_single (c : Nat) (r : List ℚ) (h : r.length = c) :
    npSumAxis0 c [r] = r := by
  unfold npSumAxis0
  simp only [List.foldl_cons, List.foldl_nil]
  exact vecAdd_zeros r c h

theorem npMeanAxis0_single (c : Nat) (r : List ℚ) (h : r.length = c) :
    npMeanAxis0 c [r] = r := by
  unfold npMeanAxis0
  rw [npSumAxis0_single c r h]
  simp

/-- C4: when the index column has no duplicates — each distinct structure
index has exactly one contributing row — both aggregators agree and return
the input table unchanged up to the ascending reordering by structure index:
pairing the sorted distinct indices with the output rows yields a
permutation of pairing the input index column with the input rows. -/
theorem c4_idempotent_on_per_structure_tables (samples : List ℤ)
    (values : Matrix2D) (hlen : samples.length = values.rows.length)
    (hwf : values.WF) (hnd : samples.Nodup) :
    ∃ oA oS, average_over_structures samples values = Except.ok oA ∧
      sum_over_structures samples values = Except.ok oS ∧
      oA.rows = oS.rows ∧
      ((npUnique samples).zip oA.rows).Perm (samples.zip values.rows) := by
  have hA := aggWith_rows npMeanAxis0 samples values hlen hwf
    (fun g hg => npMeanAxis0_length values.ncols g hg)
  have hS := aggWith_rows npSumAxis0 samples values hlen hwf
    (fun g hg => npSumAxis0_length values.ncols g hg)
  have hf : ∀ p ∈ samples.zip values.rows,
      npMeanAxis0 values.ncols (groupRows p.1 samples values.rows) = p.2 := by
    intro p hp
    rw [groupRows_of_nodup samples values.rows hnd hlen p hp]
    exact npMeanAxis0_single _ _ (hwf p.2 (List.of_mem_zip hp).2)
  have hg : ∀ p ∈ samples.zip values.rows,
      npSumAxis0 values.ncols (groupRows p.1 samples values.rows) = p.2 := by
    intro p hp
    rw [groupRows_of_nodup samples values.rows hnd hlen p hp]
    exact npSumAxis0_single _ _ (hwf p.2 (List.of_mem_zip hp).2)
  refine ⟨_, _, average_eq_aggWith ▸ hA, sum_eq_aggWith ▸ hS, ?_, ?_⟩
  · show (npUnique samples).map (fun s =>
        npMeanAxis0 values.ncols (groupRows s samples values.rows)) =
      (npUnique samples).map (fun s =>
        npSumAxis0 values.ncols (groupRows s samples values.rows))
    apply List.map_congr_left
    intro s hs
    obtain ⟨b, hb⟩ := exists_mem_zip_left samples values.rows s
      (mem_npUnique.mp hs) hlen
    rw [hf (s, b) hb, hg (s, b) hb]
  · show ((npUnique samples).zip ((npUnique samples).map (fun s =>
        npMeanAxis0 values.ncols (groupRows s samples values.rows)))).Perm
      (samples.zip values.rows)
    rw [zip_self_map]
    have hperm_u : (npUnique samples).Perm samples :=
      (List.perm_insertionSort _ _).trans
        (by rw [List.dedup_eq_self.mpr hnd])
    have h3 : samples.map (fun s =>
        (s, npMeanAxis0 values.ncols (groupRows s samples values.rows))) =
        samples.zip values.rows :=
      map_pair_eq_zip _ samples values.rows hlen hf
    exact h3 ▸ hperm_u.map _

theorem c4_witness :
    ([2, 0] : List ℤ).length = (Matrix2D.mk 1 [[5], [6]]).rows.length ∧
    (Matrix2D.mk 1 [[5], [6]]).WF ∧ ([2, 0] : List ℤ).Nodup ∧
    (∃ oA oS, average_over_structures [2, 0] ⟨1, [[5], [6]]⟩ = Except.ok oA ∧
      sum_over_structures [2, 0] ⟨1, [[5], [6]]⟩ = Except.ok oS ∧
      oA.rows = oS.rows ∧
      ((npUnique [2, 0]).zip oA.rows).Perm
        (([2, 0] : List ℤ).zip ([[5], [6]] : List (List ℚ)))) :=
  ⟨by decide, by decide, by decide,
    c4_idempotent_on_per_structure_tables [2, 0] ⟨1, [[5], [6]]⟩
      (by decide) (by decide) (by decide)⟩

theorem mean_mul_count_eq_sum (c : Nat) (g : List (List ℚ)) (hg : g ≠ []) :
    (npMeanAxis0 c g).map (fun x => x * (g.length : ℚ)) = npSumAxis0 c g := by
  unfold npMeanAxis0
  rw [List.map_map]
  have hk : (g.length : ℚ) ≠ 0 := by
    simp only [ne_eq, Nat.cast_eq_zero, List.length_eq_zero]
    exact hg
  have hcomp : ((fun x => x * (g.length : ℚ)) ∘ (fun v => v / (g.length : ℚ))) =
      fun v => v := by
    funext v
    simp only [Function.comp]
    exact div_mul_cancel₀ v hk
  rw [hcomp]
  simp

/-- C6: the two aggregators share their grouping: on any rectangular input
with matching row counts both succeed with the same column count and the
same number of rows (one per distinct index, in the same `np.unique`
order), and each sum-mode row equals the matching mean-mode row multiplied
column-wise by the number of contributing rows of that group. -/
theorem c6_same_grouping_scaled (samples : List ℤ) (values : Matrix2D)
    (hlen : samples.length = values.rows.length) (hwf : values.WF) :
    ∃ oA oS, average_over_structures samples values = Except.ok oA ∧
      sum_over_structures samples values = Except.ok oS ∧
      oA.ncols = oS.ncols ∧ oA.rows.length = oS.rows.length ∧
      oS.rows = ((npUnique samples).zip oA.rows).map (fun p =>
        p.2.map (fun x => x *
          ((groupRows p.1 samples values.rows).length : ℚ))) := by
  have hA := aggWith_rows npMeanAxis0 samples values hlen hwf
    (fun g hg => npMeanAxis0_length values.ncols g hg)
  have hS := aggWith_rows npSumAxis0 samples values hlen hwf
    (fun g hg => npSumAxis0_length values.ncols g hg)
  refine ⟨_, _, average_eq_aggWith ▸ hA, sum_eq_aggWith ▸ hS, ?_, ?_, ?_⟩
  · rfl
  · simp
  show (npUnique samples).map (fun s =>
      npSumAxis0 values.ncols (groupRows s samples values.rows)) =
    ((npUnique samples).zip ((npUnique samples).map (fun s =>
      npMeanAxis0 values.ncols (groupRows s samples values.rows)))).map
        (fun p => p.2.map (fun x => x *
          ((groupRows p.1 samples values.rows).length : ℚ)))
  rw [zip_self_map, List.map_map]
  symm
  apply List.map_congr_left
  intro s hs
  exact mean_mul_count_eq_sum values.ncols _
    (groupRows_ne_nil hlen (mem_npUnique.mp hs))

theorem c6_witness :
    ([0, 1] : List ℤ).length = (Matrix2D.mk 1 [[1], [2]]).rows.length ∧
    (Matrix2D.mk 1 [[1], [2]]).WF ∧
    (∃ oA oS, average_over_structures [0, 1] ⟨1, [[1], [2]]⟩ = Except.ok oA ∧
      sum_over_structures [0, 1] ⟨1, [[1], [2]]⟩ = Except.ok oS ∧
      oA.ncols = oS.ncols ∧ oA.rows.length = oS.rows.length ∧
      oS.rows = ((npUnique [0, 1]).zip oA.rows).map (fun p =>
        p.2.map (fun x => x *
          ((groupRows p.1 [0, 1] ([[1], [2]] : List (List ℚ))).length : ℚ)))) :=
  ⟨by decide, by decide,
    c6_same_grouping_scaled [0, 1] ⟨1, [[1], [2]]⟩ (by decide) (by decide)⟩


theorem getD_append_self {α : Type} (d : α) :
    ∀ (l₁ l₂ : List α), (l₁ ++ l₂).getD l₁.length d = l₂.getD 0 d := by
  intro l₁
  induction l₁ with
  | nil => intro l₂; rfl
  | cons a as ih => intro l₂; simpa using ih l₂

theorem set_append_self {α : Type} (v : α) (l₁ l₂ : List α) :
    (l₁ ++ l₂).set l₁.length v = l₁ ++ l₂.set 0 v := by
  rw [List.set_append, if_neg (lt_irrefl _), Nat.sub_self]

theorem aggBody_error (red : Nat → List (List ℚ) → List ℚ) (samples : List ℤ)
    (values : Matrix2D) (strId : ℤ) (e : String)
    (hb : boolMaskIndex (samples.map (fun s => decide (s = strId))) values.rows =
      Except.error e) :
    aggBody red samples values strId = Except.error e := by
  unfold aggBody
  rw [hb]
  rfl

theorem aggBody_ok (red : Nat → List (List ℚ) → List ℚ) (samples : List ℤ)
    (values : Matrix2D) (strId : ℤ) (masked : List (List ℚ))
    (hb : boolMaskIndex (samples.map (fun s => decide (s = strId))) values.rows =
      Except.ok masked) :
    aggBody red samples values strId =
      Except.ok (vecAdd (npZerosRow values.ncols) (red values.ncols masked)) := by
  unfold aggBody
  rw [hb]
  rfl

theorem aggStepWith_error (red : Nat → List (List ℚ) → List ℚ) (st : PyState)
    (iStr : Nat × ℤ) (e : String)
    (hb : boolMaskIndex (st.samples.map (fun s => decide (s = iStr.2)))
      st.values.rows = Except.error e) :
    aggStepWith red st iStr = Except.error e := by
  simp only [aggStepWith]
  rw [hb]
  rfl

theorem aggStepWith_ok (red : Nat → List (List ℚ) → List ℚ) (st : PyState)
    (iStr : Nat × ℤ) (masked : List (List ℚ))
    (hb : boolMaskIndex (st.samples.map (fun s => decide (s = iStr.2)))
      st.values.rows = Except.ok masked) :
    aggStepWith red st iStr =
      Except.ok { st with output := st.output.set iStr.1 (vecAdd (st.output.getD iStr.1 []) (red st.values.ncols masked)) } := by
  simp only [aggStepWith]
  rw [hb]
  rfl

theorem aggStepWith_foldlM (red : Nat → List (List ℚ) → List ℚ)
    (samples : List ℤ) (values : Matrix2D) :
    ∀ (strs : List ℤ) (k : Nat) (done : List (List ℚ)), done.length = k →
      List.foldlM (aggStepWith red)
        (PyState.mk samples values
          (done ++ List.replicate strs.length (npZerosRow values.ncols)))
        (List.enumFrom k strs) =
      Except.map (fun newRows => PyState.mk samples values (done ++ newRows))
        (strs.mapM (aggBody red samples values)) := by
  intro strs
  induction strs with
  | nil =>
    intro k done _
    rw [List.mapM_nil]
    show Except.ok (PyState.mk samples values
        (done ++ List.replicate 0 (npZerosRow values.ncols))) =
      Except.map (fun newRows => PyState.mk samples values (done ++ newRows))
        (pure [])
    simp [Except.map, Pure.pure, Except.pure]
  | cons u us ih =>
    intro k done hd
    subst hd
    rw [List.enumFrom_cons, List.foldlM_cons, List.mapM_cons]
    cases hb : boolMaskIndex (samples.map (fun s => decide (s = u))) values.rows with
    | error e =>
      rw [aggStepWith_error red _ (done.length, u) e hb,
        aggBody_error red samples values u e hb]
      rfl
    | ok masked =>
      rw [aggStepWith_ok red _ (done.length, u) masked hb,
        aggBody_ok red samples values u masked hb]
      have houtput :
          (done ++ List.replicate (u :: us).length (npZerosRow values.ncols)).set
            done.length
            (vecAdd ((done ++ List.replicate (u :: us).length
                (npZerosRow values.ncols)).getD done.length [])
              (red values.ncols masked)) =
          (done ++ [vecAdd (npZerosRow values.ncols) (red values.ncols masked)])
            ++ List.replicate us.length (npZerosRow values.ncols) := by
        rw [List.length_cons, List.replicate_succ, getD_append_self,
          List.getD_cons_zero, set_append_self, List.set_cons_zero]
        simp [List.append_assoc]
      show List.foldlM (aggStepWith red)
          (PyState.mk samples values
            ((done ++ List.replicate (u :: us).length (npZerosRow values.ncols)).set
              done.length
              (vecAdd ((done ++ List.replicate (u :: us).length
                  (npZerosRow values.ncols)).getD done.length [])
                (red values.ncols masked))))
          (List.enumFrom (done.length + 1) us) = _
      rw [houtput]
      have ihh := ih (done.length + 1)
        (done ++ [vecAdd (npZerosRow values.ncols) (red values.ncols masked)])
        (by simp)
      rw [ihh]
      cases hm : us.mapM (aggBody red samples values) with
      | error e => rfl
      | ok bs =>
        show Except.ok (PyState.mk samples values
            ((done ++ [vecAdd (npZerosRow values.ncols) (red values.ncols masked)])
              ++ bs)) = _
        simp [List.append_assoc, Except.map, Bind.bind, Except.bind,
          Pure.pure, Except.pure]

theorem aggWith_st_eq (red : Nat → List (List ℚ) → List ℚ) (st : PyState) :
    aggWith_st red st = Except.map
      (fun m => (PyState.mk st.samples st.values m.rows, m))
      (aggWith red st.samples st.values) := by
  have h := aggStepWith_foldlM red st.samples st.values (npUnique st.samples) 0 [] rfl
  simp only [List.nil_append] at h
  have hst : aggWith_st red st =
      (List.foldlM (aggStepWith red)
        (PyState.mk st.samples st.values
          (List.replicate (npUnique st.samples).length (npZerosRow st.values.ncols)))
        (List.enumFrom 0 (npUnique st.samples))) >>= fun st2 =>
        Except.ok (st2, ⟨st2.values.ncols, st2.output⟩) := rfl
  have hagg : aggWith red st.samples st.values =
      ((npUnique st.samples).mapM (aggBody red st.samples st.values)) >>=
        fun rows => Except.ok ⟨st.values.ncols, rows⟩ := rfl
  rw [hst, h, hagg]
  cases hm : (npUnique st.samples).mapM (aggBody red st.samples st.values) with
  | error e => rfl
  | ok rows => rfl

theorem aggWith_st_frame (red : Nat → List (List ℚ) → List ℚ)
    {st st' : PyState} {out : Matrix2D}
    (h : aggWith_st red st = Except.ok (st', out)) :
    st'.samples = st.samples ∧ st'.values = st.values ∧
    aggWith red st.samples st.values = Except.ok out := by
  rw [aggWith_st_eq] at h
  cases hm : aggWith red st.samples st.values with
  | error e => rw [hm] at h; simp [Except.map] at h
  | ok m =>
    rw [hm] at h
    simp only [Except.map, Except.ok.injEq, Prod.mk.injEq] at h
    obtain ⟨h1, h2⟩ := h
    subst h2
    rw [← h1]
    exact ⟨rfl, rfl, rfl⟩

/-- C7: the aggregators have no side effects on their inputs: in the
state-passing reading of the notebook's loops, a successful run of either
aggregator returns a state whose index column and feature array are exactly
the input ones — only the freshly allocated `output` is written — and the
returned array is exactly what the pure aggregator computes from those
unchanged inputs. -/
theorem c7_no_side_effects (st stA stS : PyState) (outA outS : Matrix2D)
    (hA : average_over_structures_st st = Except.ok (stA, outA))
    (hS : sum_over_structures_st st = Except.ok (stS, outS)) :
    (stA.samples = st.samples ∧ stA.values = st.values ∧
      average_over_structures st.samples st.values = Except.ok outA) ∧
    (stS.samples = st.samples ∧ stS.values = st.values ∧
      sum_over_structures st.samples st.values = Except.ok outS) := by
  have h1 := aggWith_st_frame npMeanAxis0 hA
  have h2 := aggWith_st_frame npSumAxis0 hS
  exact ⟨⟨h1.1, h1.2.1, average_eq_aggWith ▸ h1.2.2⟩,
    ⟨h2.1, h2.2.1, sum_eq_aggWith ▸ h2.2.2⟩⟩

theorem c7_witness :
    (average_over_structures_st ⟨[], ⟨2, []⟩, [[9]]⟩ =
      Except.ok (⟨[], ⟨2, []⟩, []⟩, ⟨2, []⟩)) ∧
    (sum_over_structures_st ⟨[], ⟨2, []⟩, [[9]]⟩ =
      Except.ok (⟨[], ⟨2, []⟩, []⟩, ⟨2, []⟩)) ∧
    (((PyState.mk [] ⟨2, []⟩ []).samples = (PyState.mk [] ⟨2, []⟩ [[9]]).samples ∧
      (PyState.mk [] ⟨2, []⟩ []).values = (PyState.mk [] ⟨2, []⟩ [[9]]).values ∧
      average_over_structures (PyState.mk [] ⟨2, []⟩ [[9]]).samples
        (PyState.mk [] ⟨2, []⟩ [[9]]).values = Except.ok ⟨2, []⟩) ∧
     ((PyState.mk [] ⟨2, []⟩ []).samples = (PyState.mk [] ⟨2, []⟩ [[9]]).samples ∧
      (PyState.mk [] ⟨2, []⟩ []).values = (PyState.mk [] ⟨2, []⟩ [[9]]).values ∧
      sum_over_structures (PyState.mk [] ⟨2, []⟩ [[9]]).samples
        (PyState.mk [] ⟨2, []⟩ [[9]]).values = Except.ok ⟨2, []⟩)) :=
  ⟨rfl, rfl, c7_no_side_effects ⟨[], ⟨2, []⟩, [[9]]⟩ ⟨[], ⟨2, []⟩, []⟩
    ⟨[], ⟨2, []⟩, []⟩ ⟨2, []⟩ ⟨2, []⟩ rfl rfl⟩
